import Mathlib

/-!
Verification of scripts/generate_powerlifting_percentiles.py.

The script is a one-shot pipeline: it classifies each competition record
into (sex × weight-class × age-bracket) buckets, aggregates per-lift value
lists, computes interpolated percentiles per bucket with minimum-sample
gating, and serializes a nested mapping.

Shallow embedding conventions:
* Python floats are modelled as rationals (ℚ); the numeric claims are about
  the interpolation algorithm, not IEEE-754 rounding.
* Python dicts are modelled as association lists (`List (String × _)`) so
  that the key structure of the output is visible; the innermost
  `defaultdict(list)` (lift name → list of values) is modelled as a total
  function `String → List ℚ` returning `[]` for absent keys, which is
  exactly the defaultdict read behaviour.
* `int(index)` in `calculate_percentile` truncates toward zero; the index
  there is always nonnegative (percentile is a nonnegative int at every
  call site), so it is modelled as the floor `(ratFloor index).toNat`.
* Python `sorted(values)` is modelled as `List.insertionSort (· ≤ ·)`:
  over a linear order the ascending-sorted permutation of a list is unique,
  so any correct sorting algorithm is a faithful model of `sorted`.
* Python `round(x, 1)` (float, banker's rounding) is modelled as
  nearest-integer rounding of `10*x` over ℚ; no claim depends on the
  rounded numeric values, only on the structure around them.
-/

/-- Weight classes (kg), IPF standard classes for men (line 38 of the script). -/
def MALE_WEIGHT_CLASSES : List ℕ := [59, 66, 74, 83, 93, 105, 120, 140]

/-- Weight classes (kg), IPF standard classes for women (line 39 of the script). -/
def FEMALE_WEIGHT_CLASSES : List ℕ := [47, 52, 57, 63, 69, 76, 84, 100]

/-- Age brackets `(min_age, max_age, label)` (lines 42–49 of the script). -/
def AGE_BRACKETS : List (ℕ × ℕ × String) :=
  [(0, 23, "junior"),
   (24, 39, "open"),
   (40, 49, "masters_40"),
   (50, 59, "masters_50"),
   (60, 69, "masters_60"),
   (70, 999, "masters_70")]

/-- Percentiles to calculate (line 52 of the script). -/
def PERCENTILES : List ℕ := [5, 10, 20, 30, 40, 50, 60, 70, 80, 90, 95, 99]

/-- The three lift names iterated over in `process_data`. -/
def LIFTS : List String := ["squat", "bench", "deadlift"]

/-- Labels of the age brackets, in configuration order
(the list `[ab[2] for ab in AGE_BRACKETS]` at line 270). -/
def BRACKET_LABELS : List String := AGE_BRACKETS.map (fun b => b.2.2)

/-- Embedding of `get_weight_class` (lines 84–93): first configured class
with `bodyweight <= wc`, else the last class followed by `"+"`.
The Python signature allows `None` but the function never returns it. -/
def get_weight_class (bodyweight : ℚ) (is_male : Bool) : String :=
  let classes := if is_male then MALE_WEIGHT_CLASSES else FEMALE_WEIGHT_CLASSES
  match classes.find? (fun wc : ℕ => decide (bodyweight ≤ (wc : ℚ))) with
  | some wc => toString wc
  | none => toString classes.getLast! ++ "+"

/-- Embedding of `get_age_bracket` (lines 96–101): label of the first
bracket with `min_age <= age <= max_age`, else `None`. -/
def get_age_bracket (age : ℚ) : Option String :=
  (AGE_BRACKETS.find?
      (fun b : ℕ × ℕ × String => decide ((b.1 : ℚ) ≤ age ∧ age ≤ (b.2.1 : ℚ)))).map
    (fun b => b.2.2)

/-- The age-bracket assignment of one record (lines 168–176 of
`process_data`). The raw `Age` field of a row is modelled as
`none` = missing/empty string, `some none` = present but not parseable as a
float, `some (some a)` = parses to the number `a`; in the first two cases
`age_bracket` stays `None`, otherwise it is `get_age_bracket a`. -/
def rowAgeBracket (ageField : Option (Option ℚ)) : Option String :=
  match ageField with
  | none => none
  | some none => none
  | some (some a) => get_age_bracket a

/-- Floor of a rational, computed directly on the numerator and
denominator (`/` on ℤ is Euclidean division, so this is the floor for
every sign); it equals Mathlib's `⌊q⌋` by `Rat.floor_def`. Python's
`int(x)` truncates toward zero, which agrees with the floor on the
nonnegative indexes arising in `calculate_percentile`. -/
def ratFloor (q : ℚ) : ℤ := q.num / (q.den : ℤ)

/-- Embedding of `calculate_percentile` (lines 104–118). -/
def calculate_percentile (values : List ℚ) (percentile : ℕ) : ℚ :=
  if values = [] then 0
  else
    let sorted_values := values.insertionSort (· ≤ ·)
    let index : ℚ := ((sorted_values.length - 1 : ℕ) : ℚ) * percentile / 100
    let lower : ℕ := (ratFloor index).toNat
    let upper : ℕ := lower + 1
    if sorted_values.length ≤ upper then sorted_values.getD (sorted_values.length - 1) 0
    else
      let weight : ℚ := index - (lower : ℚ)
      sorted_values.getD lower 0 * (1 - weight) + sorted_values.getD upper 0 * weight

/-- Model of Python `round(x, 1)` over ℚ (see the header comment):
round `10*x` to the nearest integer, divide by 10. -/
def round1 (q : ℚ) : ℚ := ((ratFloor (10 * q + 1 / 2) : ℤ) : ℚ) / 10

/-- Per-lift statistic object emitted by `process_data`: the dict
`{"count": len(values), "percentiles": {str(p): ... for p in PERCENTILES}}`
(lines 261–267 and 280–286). `percentiles` keeps the insertion order of
`PERCENTILES`. -/
structure LiftStats where
  count : ℕ
  percentiles : List (String × ℚ)
deriving DecidableEq

/-- The statistic object built from one aggregated value list. -/
def mkStats (values : List ℚ) : LiftStats :=
  { count := values.length,
    percentiles := PERCENTILES.map
      (fun p => (toString p, round1 (calculate_percentile values p))) }

/-- One pass of the `for lift in ["squat", "bench", "deadlift"]` loops
(lines 258–267 and 277–286): emit a `(lift, stats)` entry exactly for the
lifts whose aggregated value list reaches `threshold`. -/
def mkLiftMap (threshold : ℕ) (get : String → List ℚ) : List (String × LiftStats) :=
  LIFTS.filterMap (fun lift =>
    if threshold ≤ (get lift).length then some (lift, mkStats (get lift)) else none)

/-- The value stored at one weight-class key of the output:
`wc_data = {"all_ages": {...}, "by_age": {...}}` (lines 252–255). -/
structure WcData where
  all_ages : List (String × LiftStats)
  by_age : List (String × List (String × LiftStats))
deriving DecidableEq

/-- Aggregated per-sex state after the row-ingestion loop:
`allAges` models `all_ages_data[sex_key]` (weight-class key → lift → values)
and `byAge` models `data[sex_key]` (weight-class key → age bracket → lift →
values). Outer dict levels are association lists because the `in` membership
tests at lines 249, 271 and 273 are on those levels; the innermost level is
a total function with default `[]` (a `defaultdict(list)` read). -/
structure SexAgg where
  allAges : List (String × (String → List ℚ))
  byAge : List (String × List (String × (String → List ℚ)))

/-- The `for age_bracket in [ab[2] for ab in AGE_BRACKETS]` loop
(lines 269–289), given the entry of `data[sex_key]` at the current
weight-class key: an age bracket is emitted when it is a key of that dict
and its `age_data` (lifts with at least 30 samples) is non-empty. -/
def mkByAge (brackets : List (String × (String → List ℚ))) :
    List (String × List (String × LiftStats)) :=
  BRACKET_LABELS.filterMap (fun bracket =>
    match List.lookup bracket brackets with
    | none => none
    | some get =>
      let age_data := mkLiftMap 30 get
      if age_data = [] then none else some (bracket, age_data))

/-- The body of the `for weight_class_key in [wc_str, wc_plus]` loop
(lines 248–292) at one weight-class key: `none` when the key is skipped
(`continue` at line 250, or `wc_data["all_ages"]` empty at line 291),
otherwise the `wc_data` stored into the result. -/
def processWc (agg : SexAgg) (wck : String) : Option WcData :=
  match List.lookup wck agg.allAges with
  | none => none
  | some getAll =>
    let all_ages := mkLiftMap 50 getAll
    let by_age := mkByAge ((List.lookup wck agg.byAge).getD [])
    if all_ages = [] then none else some { all_ages := all_ages, by_age := by_age }

/-- The weight-class keys tried for one sex, in order:
`[str(wc), f"{wc}+"]` for each configured class (lines 244–248). -/
def wcKeys (weight_classes : List ℕ) : List String :=
  (weight_classes.map (fun wc => [toString wc, toString wc ++ "+"])).flatten

/-- The `result[sex_key]` mapping built by `process_data` for one sex
(lines 241–292). -/
def processSex (agg : SexAgg) (weight_classes : List ℕ) : List (String × WcData) :=
  (wcKeys weight_classes).filterMap
    (fun wck => (processWc agg wck).map (fun wcd => (wck, wcd)))

/-- The non-metadata part of the result of `process_data` (lines 228–294):
the `"male"` and `"female"` top-level mappings. The `"metadata"` sibling
key (constant strings plus the row counter) is plumbing and not modelled. -/
structure Result where
  male : List (String × WcData)
  female : List (String × WcData)

/-- Embedding of `process_data` from line 241 on, taking the aggregated
state that the row-ingestion loop produced for each sex. -/
def process_data (maleAgg femaleAgg : SexAgg) : Result :=
  { male := processSex maleAgg MALE_WEIGHT_CLASSES,
    female := processSex femaleAgg FEMALE_WEIGHT_CLASSES }

/-- The two top-level sex entries of the result, as a keyed list
(`result["male"]`, `result["female"]`). -/
def Result.sexes (r : Result) : List (String × List (String × WcData)) :=
  [("male", r.male), ("female", r.female)]

/-- Modelled from the spec: "given a sorted sequence of N values and
percentile p (0–100), compute fractional index i = (N−1)·p/100, and
linearly interpolate between the floor and ceiling elements using the
fractional part as weight; clamp to the last element when the ceiling
index exceeds N−1". The input `s` is the ascending-sorted sequence. -/
def specPercentileInterpolation (s : List ℚ) (p : ℕ) : ℚ :=
  let i : ℚ := ((s.length - 1 : ℕ) : ℚ) * p / 100
  let lower : ℕ := (⌊i⌋).toNat
  let w : ℚ := i - (lower : ℚ)
  if s.length - 1 < lower + 1 then s.getD (s.length - 1) 0
  else s.getD lower 0 * (1 - w) + s.getD (lower + 1) 0 * w

/-- Computing the floor on the numerator and denominator is the floor. -/
lemma ratFloor_eq_floor (q : ℚ) : ratFloor q = ⌊q⌋ := Rat.floor_def.symm

/-- Sorting the values yields any ascending-sorted permutation of them
(sorted permutations are unique). -/
lemma insertionSort_eq_of_perm_of_sorted {values s : List ℚ}
    (hperm : s.Perm values) (hsort : s.Sorted (· ≤ ·)) :
    values.insertionSort (· ≤ ·) = s :=
  List.eq_of_perm_of_sorted ((List.perm_insertionSort _ values).trans hperm.symm)
    (List.sorted_insertionSort _ values) hsort

/-- Claim C9: `calculate_percentile` applied to the empty list returns 0
for every percentile, rather than failing. -/
theorem calculate_percentile_empty (p : ℕ) : calculate_percentile [] p = 0 := rfl

/-- Claim C8: `calculate_percentile` is invariant under permutation of its
value list, because the function sorts the list before indexing. -/
theorem calculate_percentile_perm_invariant (values values' : List ℚ) (p : ℕ)
    (h : values.Perm values') :
    calculate_percentile values p = calculate_percentile values' p := by
  by_cases hv : values = []
  · subst hv
    have : values' = [] := h.symm.eq_nil
    simp [this]
  · have hv' : values' ≠ [] := fun hh => hv (hh ▸ h).eq_nil
    have hms : values.insertionSort (· ≤ ·) = values'.insertionSort (· ≤ ·) :=
      List.eq_of_perm_of_sorted
        ((List.perm_insertionSort _ values).trans
          (h.trans (List.perm_insertionSort _ values').symm))
        (List.sorted_insertionSort _ values) (List.sorted_insertionSort _ values')
    unfold calculate_percentile
    simp only [hv, hv', if_false, hms]

/-- Witness for C8 at a concrete permutation. -/
theorem calculate_percentile_perm_invariant_witness :
    calculate_percentile [2, 1] 50 = calculate_percentile [1, 2] 50 :=
  calculate_percentile_perm_invariant [2, 1] [1, 2] 50 (by decide)

/-- Claim C1: on a non-empty list and a configured percentile,
`calculate_percentile` returns exactly the spec's linear interpolation over
the ascending-sorted values (with the clamp to the last element when the
ceiling index exceeds N−1). `s` is any ascending-sorted permutation of the
input, i.e. "the sorted values". -/
theorem calculate_percentile_matches_spec (values : List ℚ) (p : ℕ)
    (hne : values ≠ []) (hp : p ∈ PERCENTILES)
    (s : List ℚ) (hperm : s.Perm values) (hsort : s.Sorted (· ≤ ·)) :
    calculate_percentile values p = specPercentileInterpolation s p := by
  have hms := insertionSort_eq_of_perm_of_sorted hperm hsort
  have hlen : s.length = values.length := hperm.length_eq
  have hpos : 1 ≤ s.length := by
    rw [hlen]
    exact List.length_pos.mpr hne
  unfold calculate_percentile specPercentileInterpolation
  simp only [hne, if_false, hms, ratFloor_eq_floor]
  split_ifs with h1 h2 <;> first
    | rfl
    | (exfalso; omega)

/-- Witness for C1 at a concrete input: the median of `[1, 2, 3, 4]`. -/
theorem calculate_percentile_matches_spec_witness :
    calculate_percentile [1, 2, 3, 4] 50 = specPercentileInterpolation [1, 2, 3, 4] 50 ∧
    calculate_percentile [1, 2, 3, 4] 50 = 5 / 2 :=
  ⟨calculate_percentile_matches_spec [1, 2, 3, 4] 50 (by decide) (by decide)
      [1, 2, 3, 4] (by decide) (by decide),
    by norm_num [calculate_percentile, ratFloor, List.insertionSort,
      List.orderedInsert] <;> simp⟩

/-- Membership in the per-lift mapping built by the gated loops: an entry
appears exactly for a configured lift whose value list reaches the
threshold, and it carries the statistics of that list. -/
lemma mem_mkLiftMap {t : ℕ} {get : String → List ℚ} {lift : String}
    {stats : LiftStats} :
    (lift, stats) ∈ mkLiftMap t get ↔
      lift ∈ LIFTS ∧ t ≤ (get lift).length ∧ stats = mkStats (get lift) := by
  unfold mkLiftMap
  rw [List.mem_filterMap]
  constructor
  · rintro ⟨l, hl, hf⟩
    by_cases hc : t ≤ (get l).length
    · rw [if_pos hc] at hf
      rcases Prod.mk.injEq .. ▸ Option.some.injEq .. ▸ hf with ⟨h1, h2⟩
      exact h1 ▸ ⟨hl, hc, h2.symm⟩
    · rw [if_neg hc] at hf
      exact absurd hf (Option.noConfusion)
  · rintro ⟨hl, hc, hs⟩
    exact ⟨lift, hl, by rw [if_pos hc, hs]⟩

/-- The per-lift mapping is empty exactly when every configured lift is
below the threshold. -/
lemma mkLiftMap_eq_nil {t : ℕ} {get : String → List ℚ} :
    mkLiftMap t get = [] ↔ ∀ l ∈ LIFTS, (get l).length < t := by
  unfold mkLiftMap
  rw [List.filterMap_eq_nil_iff]
  constructor
  · intro h l hl
    by_contra hc
    rw [Nat.not_lt] at hc
    have := h l hl
    rw [if_pos hc] at this
    exact Option.noConfusion this
  · intro h l hl
    rw [if_neg (Nat.not_le.mpr (h l hl))]

/-- Membership in the `by_age` mapping: an entry appears exactly for a
configured age-bracket label that is a key of the aggregated dict and
whose per-lift mapping (at threshold 30) is non-empty. -/
lemma mem_mkByAge {brackets : List (String × (String → List ℚ))}
    {bracket : String} {bdata : List (String × LiftStats)} :
    (bracket, bdata) ∈ mkByAge brackets ↔
      bracket ∈ BRACKET_LABELS ∧ ∃ get, List.lookup bracket brackets = some get ∧
        mkLiftMap 30 get ≠ [] ∧ bdata = mkLiftMap 30 get := by
  unfold mkByAge
  rw [List.mem_filterMap]
  constructor
  · rintro ⟨b, hb, hf⟩
    cases hlk : List.lookup b brackets with
    | none => rw [hlk] at hf; exact absurd hf Option.noConfusion
    | some get =>
      rw [hlk] at hf
      simp only at hf
      by_cases he : mkLiftMap 30 get = []
      · rw [if_pos he] at hf; exact absurd hf Option.noConfusion
      · rw [if_neg he] at hf
        rcases Prod.mk.injEq .. ▸ Option.some.injEq .. ▸ hf with ⟨h1, h2⟩
        subst h1
        exact ⟨hb, get, hlk, he, h2.symm⟩
  · rintro ⟨hb, get, hlk, he, hd⟩
    refine ⟨bracket, hb, ?_⟩
    rw [hlk]
    simp only
    rw [if_neg he, hd]

/-- Characterization of the per-weight-class result: a `wc_data` is stored
exactly when the key is in `all_ages_data` and its gated `all_ages`
mapping is non-empty, and then it consists of that mapping together with
the `by_age` mapping built from `data` at the same key. -/
lemma processWc_eq_some {agg : SexAgg} {wck : String} {wcd : WcData} :
    processWc agg wck = some wcd ↔
      ∃ getAll, List.lookup wck agg.allAges = some getAll ∧
        mkLiftMap 50 getAll ≠ [] ∧
        wcd = { all_ages := mkLiftMap 50 getAll,
                by_age := mkByAge ((List.lookup wck agg.byAge).getD []) } := by
  unfold processWc
  cases hlk : List.lookup wck agg.allAges with
  | none =>
    constructor
    · intro h; exact absurd h Option.noConfusion
    · rintro ⟨g, hg, _⟩; exact absurd hg Option.noConfusion
  | some getAll =>
    simp only
    by_cases he : mkLiftMap 50 getAll = []
    · rw [if_pos he]
      constructor
      · intro h; exact absurd h Option.noConfusion
      · rintro ⟨g, hg, hne, _⟩
        cases Option.some.injEq .. ▸ hg
        exact absurd he hne
    · rw [if_neg he]
      constructor
      · intro h
        exact ⟨getAll, rfl, he, (Option.some.injEq .. ▸ h).symm⟩
      · rintro ⟨g, hg, hne, hd⟩
        cases Option.some.injEq .. ▸ hg
        rw [hd]

/-- Membership in the per-sex result mapping: an entry appears exactly at
a configured weight-class key whose `processWc` is non-skipping. -/
lemma mem_processSex {agg : SexAgg} {wcs : List ℕ} {wck : String} {wcd : WcData} :
    (wck, wcd) ∈ processSex agg wcs ↔
      wck ∈ wcKeys wcs ∧ processWc agg wck = some wcd := by
  unfold processSex
  rw [List.mem_filterMap]
  constructor
  · rintro ⟨k, hk, hf⟩
    rcases Option.map_eq_some'.mp hf with ⟨d, hd, he⟩
    rcases Prod.mk.injEq .. ▸ he with ⟨h1, h2⟩
    subst h1; subst h2
    exact ⟨hk, hd⟩
  · rintro ⟨hk, hd⟩
    exact ⟨wck, hk, by rw [hd]; rfl⟩

/-- On a list sorted ascending, `find?` of the upward-closed predicate
`bw ≤ ·` returns the least satisfying element. -/
lemma find?_le_min_of_sorted :
    ∀ (l : List ℕ), l.Sorted (· ≤ ·) → ∀ {bw : ℚ} {wc : ℕ},
      l.find? (fun w : ℕ => decide (bw ≤ (w : ℚ))) = some wc →
      bw ≤ (wc : ℚ) ∧ ∀ wc' ∈ l, bw ≤ (wc' : ℚ) → wc ≤ wc' := by
  intro l
  induction l with
  | nil => intro _ bw wc h; exact absurd h (by simp)
  | cons a t ih =>
    intro hs bw wc h
    rcases List.sorted_cons.mp hs with ⟨ha, ht⟩
    by_cases hp : bw ≤ (a : ℚ)
    · rw [show (a :: t).find? (fun w : ℕ => decide (bw ≤ (w : ℚ))) = some a from
          List.find?_cons_of_pos _ (by simpa using hp)] at h
      cases Option.some.injEq .. ▸ h
      refine ⟨hp, ?_⟩
      intro wc' hm _
      rcases List.mem_cons.mp hm with rfl | hm'
      · exact Nat.le_refl _
      · exact ha wc' hm'
    · rw [show (a :: t).find? (fun w : ℕ => decide (bw ≤ (w : ℚ))) =
            t.find? (fun w : ℕ => decide (bw ≤ (w : ℚ))) from
          List.find?_cons_of_neg _ (by simpa using hp)] at h
      rcases ih ht h with ⟨h1, h2⟩
      refine ⟨h1, ?_⟩
      intro wc' hm hbw
      rcases List.mem_cons.mp hm with rfl | hm'
      · exact absurd hbw hp
      · exact h2 wc' hm' hbw

/-- Claim C4: the assigned weight-class label is the string of the smallest
configured class threshold that is ≥ the bodyweight, and when the
bodyweight exceeds every threshold it is the largest threshold followed by
`"+"` (`"140+"` for men, `"100+"` for women). -/
theorem get_weight_class_smallest_threshold (bw : ℚ) (is_male : Bool) :
    (∃ wc ∈ (if is_male then MALE_WEIGHT_CLASSES else FEMALE_WEIGHT_CLASSES),
       bw ≤ (wc : ℚ)
       ∧ (∀ wc' ∈ (if is_male then MALE_WEIGHT_CLASSES else FEMALE_WEIGHT_CLASSES),
            bw ≤ (wc' : ℚ) → wc ≤ wc')
       ∧ get_weight_class bw is_male = toString wc)
    ∨ ((∀ wc ∈ (if is_male then MALE_WEIGHT_CLASSES else FEMALE_WEIGHT_CLASSES),
          (wc : ℚ) < bw)
       ∧ get_weight_class bw is_male = (if is_male then "140+" else "100+")) := by
  cases is_male with
  | false =>
    have hs : FEMALE_WEIGHT_CLASSES.Sorted (· ≤ ·) := by decide
    cases hf : FEMALE_WEIGHT_CLASSES.find? (fun w : ℕ => decide (bw ≤ (w : ℚ))) with
    | some wc =>
      left
      rcases find?_le_min_of_sorted _ hs hf with ⟨h1, h2⟩
      exact ⟨wc, List.mem_of_find?_eq_some hf, h1, h2, by simp [get_weight_class, hf]⟩
    | none =>
      right
      constructor
      · intro wc hwc
        have := List.find?_eq_none.mp hf wc hwc
        exact lt_of_not_le (by simpa using this)
      · show get_weight_class bw false = "100+"
        unfold get_weight_class
        show (match FEMALE_WEIGHT_CLASSES.find? (fun wc : ℕ => decide (bw ≤ (wc : ℚ))) with
              | some wc => toString wc
              | none => toString FEMALE_WEIGHT_CLASSES.getLast! ++ "+") = "100+"
        rw [hf]
        rfl
  | true =>
    have hs : MALE_WEIGHT_CLASSES.Sorted (· ≤ ·) := by decide
    cases hf : MALE_WEIGHT_CLASSES.find? (fun w : ℕ => decide (bw ≤ (w : ℚ))) with
    | some wc =>
      left
      rcases find?_le_min_of_sorted _ hs hf with ⟨h1, h2⟩
      exact ⟨wc, List.mem_of_find?_eq_some hf, h1, h2, by simp [get_weight_class, hf]⟩
    | none =>
      right
      constructor
      · intro wc hwc
        have := List.find?_eq_none.mp hf wc hwc
        exact lt_of_not_le (by simpa using this)
      · show get_weight_class bw true = "140+"
        unfold get_weight_class
        show (match MALE_WEIGHT_CLASSES.find? (fun wc : ℕ => decide (bw ≤ (wc : ℚ))) with
              | some wc => toString wc
              | none => toString MALE_WEIGHT_CLASSES.getLast! ++ "+") = "140+"
        rw [hf]
        rfl

/-- Witness for C4 at bodyweight 60 kg, male. -/
theorem get_weight_class_smallest_threshold_witness :
    (∃ wc ∈ (if true then MALE_WEIGHT_CLASSES else FEMALE_WEIGHT_CLASSES),
       (60 : ℚ) ≤ (wc : ℚ)
       ∧ (∀ wc' ∈ (if true then MALE_WEIGHT_CLASSES else FEMALE_WEIGHT_CLASSES),
            (60 : ℚ) ≤ (wc' : ℚ) → wc ≤ wc')
       ∧ get_weight_class 60 true = toString wc)
    ∨ ((∀ wc ∈ (if true then MALE_WEIGHT_CLASSES else FEMALE_WEIGHT_CLASSES),
          (wc : ℚ) < (60 : ℚ))
       ∧ get_weight_class 60 true = (if true then "140+" else "100+")) :=
  get_weight_class_smallest_threshold 60 true

/-- Counterexample to claim C5 as stated: the claim says a record receives
no age bracket exactly when its age field is missing or unparseable, but a
record whose `Age` field parses to 23.5 (present and parseable — such
half-year ages occur in the OpenPowerlifting data) also receives no
bracket, because 23.5 lies in none of the configured integer-bounded
ranges (0–23, 24–39, ...). -/
theorem age_bracket_claim_counterexample :
    rowAgeBracket (some (some ((47 : ℚ) / 2))) = none
    ∧ (some (some ((47 : ℚ) / 2)) : Option (Option ℚ)) ≠ none
    ∧ (some (some ((47 : ℚ) / 2)) : Option (Option ℚ)) ≠ some none := by
  refine ⟨?_, by simp, by simp⟩
  norm_num [rowAgeBracket, get_age_bracket, AGE_BRACKETS, List.find?]

/-- Claim C5, amended: the assigned age bracket is the label of the first
configured `[min, max]` range containing the age, and a record receives no
age bracket exactly when its age field is missing, unparseable, or parses
to a number contained in none of the configured ranges (e.g. a fractional
age strictly between two ranges, such as 23.5, a negative age, or an age
above 999). -/
theorem age_bracket_assignment :
    (∀ f : Option (Option ℚ), rowAgeBracket f = none ↔
       (f = none ∨ f = some none ∨ ∃ a, f = some (some a) ∧
         ∀ b ∈ AGE_BRACKETS, ¬((b.1 : ℚ) ≤ a ∧ a ≤ (b.2.1 : ℚ))))
    ∧ (∀ (a : ℚ) (label : String), get_age_bracket a = some label ↔
       ∃ b pre post, AGE_BRACKETS = pre ++ b :: post ∧ label = b.2.2 ∧
         ((b.1 : ℚ) ≤ a ∧ a ≤ (b.2.1 : ℚ)) ∧
         ∀ c ∈ pre, ¬((c.1 : ℚ) ≤ a ∧ a ≤ (c.2.1 : ℚ))) := by
  constructor
  · intro f
    cases f with
    | none => simp [rowAgeBracket]
    | some g =>
      cases g with
      | none => simp [rowAgeBracket]
      | some a =>
        show get_age_bracket a = none ↔ _
        unfold get_age_bracket
        rw [Option.map_eq_none']
        rw [List.find?_eq_none]
        constructor
        · intro h
          refine Or.inr (Or.inr ⟨a, rfl, ?_⟩)
          intro b hb
          simpa using h b hb
        · rintro (h | h | ⟨a', ha', hall⟩)
          · exact absurd h (by simp)
          · exact absurd h (by simp)
          · rcases Option.some.injEq .. ▸ ha' with h1
            rcases Option.some.injEq .. ▸ h1 with h2
            subst h2
            intro b hb
            simpa using hall b hb
  · intro a label
    unfold get_age_bracket
    rw [Option.map_eq_some']
    constructor
    · rintro ⟨b, hb, hl⟩
      rcases List.find?_eq_some.mp hb with ⟨hp, pre, post, hsplit, hpre⟩
      refine ⟨b, pre, post, hsplit, hl.symm, by simpa using hp, ?_⟩
      intro c hc
      intro hcon
      rcases (by simpa using hpre c hc : a < (c.1 : ℚ) ∨ (c.2.1 : ℚ) < a) with h | h
      · exact absurd hcon.1 (not_le.mpr h)
      · exact absurd hcon.2 (not_le.mpr h)
    · rintro ⟨b, pre, post, hsplit, hl, hin, hpre⟩
      refine ⟨b, ?_, hl.symm⟩
      refine List.find?_eq_some.mpr ⟨by simpa using hin, pre, post, hsplit, ?_⟩
      intro c hc
      have hc' := hpre c hc
      simp only [Bool.not_eq_true', decide_eq_false_iff_not]
      exact hc'

/-- Witness for C5 at concrete ages: age 1000 parses but gets no bracket,
and age 25 gets the "open" bracket as the first containing range. -/
theorem age_bracket_assignment_witness :
    rowAgeBracket (some (some (1000 : ℚ))) = none
    ∧ get_age_bracket 25 = some "open" := by
  constructor
  · exact (age_bracket_assignment.1 (some (some 1000))).mpr
      (Or.inr (Or.inr ⟨1000, rfl, by decide⟩))
  · exact (age_bracket_assignment.2 25 "open").mpr
      ⟨(24, 39, "open"), [(0, 23, "junior")],
        [(40, 49, "masters_40"), (50, 59, "masters_50"),
         (60, 69, "masters_60"), (70, 999, "masters_70")],
        rfl, rfl, by decide, by decide⟩

/-- Example aggregated value list: 50 squat results of 100 kg. -/
def exVals50 : List ℚ := List.replicate 50 100

/-- Example aggregated value list: 30 squat results of 80 kg. -/
def exVals30 : List ℚ := List.replicate 30 80

/-- Example all-ages lift dict at weight class "59": 50 squats, no bench
or deadlift samples. -/
def exGetAll : String → List ℚ := fun lift => if lift = "squat" then exVals50 else []

/-- Example junior-bracket lift dict at weight class "59": 30 squats. -/
def exGetJunior : String → List ℚ := fun lift => if lift = "squat" then exVals30 else []

/-- Example per-sex aggregated state with data only at weight class "59". -/
def exAgg : SexAgg :=
  { allAges := [("59", exGetAll)], byAge := [("59", [("junior", exGetJunior)])] }

/-- Empty per-sex aggregated state. -/
def exEmpty : SexAgg := { allAges := [], byAge := [] }

/-- The statistics emitted for the example all-ages squat list. -/
def exStats50 : LiftStats := mkStats exVals50

/-- The statistics emitted for the example junior squat list. -/
def exStats30 : LiftStats := mkStats exVals30

/-- The weight-class entry that `process_data` emits from `exAgg`. -/
def exWcd : WcData :=
  { all_ages := [("squat", exStats50)],
    by_age := [("junior", [("squat", exStats30)])] }

/-- Evaluating the per-sex result on the example aggregation. -/
lemma exProcessSex : processSex exAgg [59] = [("59", exWcd)] := rfl

/-- Evaluating the per-sex result on the example aggregation over the full
male weight-class configuration. -/
lemma exProcessSexMale : processSex exAgg MALE_WEIGHT_CLASSES = [("59", exWcd)] := rfl

/-- Claim C2: an `all_ages` statistic for a lift appears in the output
only when the aggregated value list for that (sex, weight class, lift) has
at least 50 entries (and then `count` is that sample size); a lift below
the threshold is entirely absent from the `all_ages` mapping. The
aggregated state `agg` and class list `wcs` range over both sexes
(`process_data` applies `processSex` to each). -/
theorem all_ages_min_sample_gating (agg : SexAgg) (wcs : List ℕ)
    (wck : String) (wcd : WcData) (getAll : String → List ℚ) (lift : String)
    (hmem : (wck, wcd) ∈ processSex agg wcs)
    (hget : List.lookup wck agg.allAges = some getAll) :
    (∀ stats, (lift, stats) ∈ wcd.all_ages →
       50 ≤ (getAll lift).length ∧ stats.count = (getAll lift).length)
    ∧ ((getAll lift).length < 50 → ∀ stats, (lift, stats) ∉ wcd.all_ages) := by
  rcases processWc_eq_some.mp (mem_processSex.mp hmem).2 with ⟨g, hg, hne, hd⟩
  rw [hget] at hg
  cases Option.some.injEq .. ▸ hg
  subst hd
  constructor
  · intro stats hs
    rcases mem_mkLiftMap.mp hs with ⟨_, hc, hstat⟩
    exact ⟨hc, by rw [hstat]; rfl⟩
  · intro hlt stats hs
    rcases mem_mkLiftMap.mp hs with ⟨_, hc, _⟩
    omega

/-- Witness for C2 on the example aggregation: the emitted squat entry at
weight class "59" has 50 samples and reports that count. -/
theorem all_ages_min_sample_gating_witness :
    50 ≤ (exGetAll "squat").length ∧ exStats50.count = (exGetAll "squat").length :=
  (all_ages_min_sample_gating exAgg [59] "59" exWcd exGetAll "squat"
      (by rw [exProcessSex]; exact List.mem_singleton.mpr rfl) rfl).1
    exStats50
    (by show ("squat", exStats50) ∈ [("squat", exStats50)]
        exact List.mem_singleton.mpr rfl)

/-- Claim C3: an age-bracket statistic for a lift appears in the output
only when the aggregated value list for that (sex, weight class, age
bracket, lift) has at least 30 entries (and then `count` is that sample
size); lifts below the threshold are omitted from the bracket's mapping,
and a bracket in which no lift qualifies is entirely absent from
`by_age`. -/
theorem by_age_min_sample_gating (agg : SexAgg) (wcs : List ℕ)
    (wck : String) (wcd : WcData) (get : String → List ℚ)
    (bracket lift : String)
    (hmem : (wck, wcd) ∈ processSex agg wcs)
    (hget : List.lookup bracket ((List.lookup wck agg.byAge).getD []) = some get) :
    (∀ bdata, (bracket, bdata) ∈ wcd.by_age → ∀ stats, (lift, stats) ∈ bdata →
       30 ≤ (get lift).length ∧ stats.count = (get lift).length)
    ∧ ((get lift).length < 30 →
       ∀ bdata, (bracket, bdata) ∈ wcd.by_age → ∀ stats, (lift, stats) ∉ bdata)
    ∧ ((∀ l ∈ LIFTS, (get l).length < 30) →
       ∀ bdata, (bracket, bdata) ∉ wcd.by_age) := by
  rcases processWc_eq_some.mp (mem_processSex.mp hmem).2 with ⟨g, hg, hne, hd⟩
  subst hd
  refine ⟨?_, ?_, ?_⟩
  · intro bdata hb stats hs
    rcases mem_mkByAge.mp hb with ⟨_, get', hlk, _, hbd⟩
    rw [hget] at hlk
    cases Option.some.injEq .. ▸ hlk
    rcases mem_mkLiftMap.mp (hbd ▸ hs) with ⟨_, hc, hstat⟩
    exact ⟨hc, by rw [hstat]; rfl⟩
  · intro hlt bdata hb stats hs
    rcases mem_mkByAge.mp hb with ⟨_, get', hlk, _, hbd⟩
    rw [hget] at hlk
    cases Option.some.injEq .. ▸ hlk
    rcases mem_mkLiftMap.mp (hbd ▸ hs) with ⟨_, hc, _⟩
    omega
  · intro hall bdata hb
    rcases mem_mkByAge.mp hb with ⟨_, get', hlk, hne', _⟩
    rw [hget] at hlk
    cases Option.some.injEq .. ▸ hlk
    exact hne' (mkLiftMap_eq_nil.mpr hall)

/-- Witness for C3 on the example aggregation: the emitted junior squat
entry at weight class "59" has 30 samples and reports that count. -/
theorem by_age_min_sample_gating_witness :
    30 ≤ (exGetJunior "squat").length
    ∧ exStats30.count = (exGetJunior "squat").length :=
  (by_age_min_sample_gating exAgg [59] "59" exWcd exGetJunior "junior" "squat"
      (by rw [exProcessSex]; exact List.mem_singleton.mpr rfl) rfl).1
    [("squat", exStats30)]
    (by show ("junior", [("squat", exStats30)]) ∈ [("junior", [("squat", exStats30)])]
        exact List.mem_singleton.mpr rfl)
    exStats30
    (List.mem_singleton.mpr rfl)

/-- Claim C10: every weight-class entry present in the output has a
non-empty `all_ages` mapping, and a weight class in which no lift reaches
50 all-ages samples is dropped from the output entirely — regardless of
its age-bracket data. -/
theorem weight_class_requires_all_ages (agg : SexAgg) (wcs : List ℕ)
    (wck : String) :
    (∀ wcd, (wck, wcd) ∈ processSex agg wcs → wcd.all_ages ≠ [])
    ∧ (∀ getAll, List.lookup wck agg.allAges = some getAll →
        (∀ l ∈ LIFTS, (getAll l).length < 50) →
        ∀ wcd, (wck, wcd) ∉ processSex agg wcs) := by
  constructor
  · intro wcd hmem
    rcases processWc_eq_some.mp (mem_processSex.mp hmem).2 with ⟨g, _, hne, hd⟩
    rw [hd]
    exact hne
  · intro getAll hget hall wcd hmem
    rcases processWc_eq_some.mp (mem_processSex.mp hmem).2 with ⟨g, hg, hne, _⟩
    rw [hget] at hg
    cases Option.some.injEq .. ▸ hg
    exact hne (mkLiftMap_eq_nil.mpr hall)

/-- Witness for C10 on the example aggregation. -/
theorem weight_class_requires_all_ages_witness : exWcd.all_ages ≠ [] :=
  (weight_class_requires_all_ages exAgg [59] "59").1 exWcd
    (by rw [exProcessSex]; exact List.mem_singleton.mpr rfl)

/-- The keys of every emitted `percentiles` mapping are the string forms
of the twelve configured percentiles, in order. -/
lemma mkStats_percentile_keys (v : List ℚ) :
    (mkStats v).percentiles.map Prod.fst =
      ["5", "10", "20", "30", "40", "50", "60", "70", "80", "90", "95", "99"] := rfl

/-- Claim C7: every emitted lift statistic, under `all_ages` or under an
age bracket, has a percentile entry for exactly the twelve percentiles
{5, 10, 20, 30, 40, 50, 60, 70, 80, 90, 95, 99}, no more and no fewer. -/
theorem percentile_key_set (agg : SexAgg) (wcs : List ℕ)
    (wck : String) (wcd : WcData)
    (hmem : (wck, wcd) ∈ processSex agg wcs) :
    (∀ lift stats, (lift, stats) ∈ wcd.all_ages →
       stats.percentiles.map Prod.fst =
         ["5", "10", "20", "30", "40", "50", "60", "70", "80", "90", "95", "99"])
    ∧ (∀ bracket bdata, (bracket, bdata) ∈ wcd.by_age →
       ∀ lift stats, (lift, stats) ∈ bdata →
         stats.percentiles.map Prod.fst =
           ["5", "10", "20", "30", "40", "50", "60", "70", "80", "90", "95", "99"]) := by
  rcases processWc_eq_some.mp (mem_processSex.mp hmem).2 with ⟨g, hg, hne, hd⟩
  subst hd
  constructor
  · intro lift stats hs
    rcases mem_mkLiftMap.mp hs with ⟨_, _, hstat⟩
    rw [hstat]
    exact mkStats_percentile_keys _
  · intro bracket bdata hb lift stats hs
    rcases mem_mkByAge.mp hb with ⟨_, get', _, _, hbd⟩
    rcases mem_mkLiftMap.mp (hbd ▸ hs) with ⟨_, _, hstat⟩
    rw [hstat]
    exact mkStats_percentile_keys _

/-- Witness for C7 on the example aggregation. -/
theorem percentile_key_set_witness :
    exStats50.percentiles.map Prod.fst =
      ["5", "10", "20", "30", "40", "50", "60", "70", "80", "90", "95", "99"] :=
  (percentile_key_set exAgg [59] "59" exWcd
      (by rw [exProcessSex]; exact List.mem_singleton.mpr rfl)).1
    "squat" exStats50
    (by show ("squat", exStats50) ∈ [("squat", exStats50)]
        exact List.mem_singleton.mpr rfl)

/-- Counterexample to claim C6 as stated: the claim says there are no
levels between `"by_age"` and the lift names, but in the produced result
the value under `"by_age"` is keyed by age-bracket labels (here
`"junior"`, which is not a lift name), and only the next level down is
keyed by lift names. -/
theorem output_shape_counterexample :
    (List.lookup "59" (process_data exAgg exEmpty).male).map WcData.by_age =
      some [("junior", [("squat", exStats30)])]
    ∧ "junior" ∉ LIFTS := by
  constructor
  · show (List.lookup "59" (processSex exAgg MALE_WEIGHT_CLASSES)).map WcData.by_age = _
    rw [exProcessSexMale]
    rfl
  · decide

/-- Claim C6, amended: the serialized result is a nested mapping
sex → weight-class label → the two keys `all_ages`/`by_age`; under
`all_ages`, lift names map directly to `{count, percentiles}` objects
(the `LiftStats` structure), while under `by_age` there is one
intermediate level: age-bracket label → lift name → `{count,
percentiles}`. -/
theorem output_shape (maleAgg femaleAgg : SexAgg) (sexKey : String)
    (sexMap : List (String × WcData))
    (hsex : (sexKey, sexMap) ∈ (process_data maleAgg femaleAgg).sexes)
    (wck : String) (wcd : WcData)
    (hwc : (wck, wcd) ∈ sexMap) :
    (sexKey = "male" ∨ sexKey = "female")
    ∧ (wck ∈ wcKeys MALE_WEIGHT_CLASSES ∨ wck ∈ wcKeys FEMALE_WEIGHT_CLASSES)
    ∧ (∀ e ∈ wcd.all_ages, e.1 ∈ LIFTS)
    ∧ (∀ b ∈ wcd.by_age, b.1 ∈ BRACKET_LABELS ∧ ∀ e ∈ b.2, e.1 ∈ LIFTS) := by
  have hshape : ∀ (agg : SexAgg) (wcs : List ℕ),
      (wck, wcd) ∈ processSex agg wcs →
      wck ∈ wcKeys wcs
      ∧ (∀ e ∈ wcd.all_ages, e.1 ∈ LIFTS)
      ∧ (∀ b ∈ wcd.by_age, b.1 ∈ BRACKET_LABELS ∧ ∀ e ∈ b.2, e.1 ∈ LIFTS) := by
    intro agg wcs h
    rcases mem_processSex.mp h with ⟨hk, hw⟩
    rcases processWc_eq_some.mp hw with ⟨g, _, _, hd⟩
    subst hd
    refine ⟨hk, ?_, ?_⟩
    · rintro ⟨l, s⟩ he
      exact (mem_mkLiftMap.mp he).1
    · rintro ⟨b, bd⟩ hb
      rcases mem_mkByAge.mp hb with ⟨hbl, g', _, _, hbd⟩
      refine ⟨hbl, ?_⟩
      rintro ⟨l, s⟩ he
      exact (mem_mkLiftMap.mp (hbd ▸ he)).1
  rcases List.mem_cons.mp hsex with h | h
  · rcases Prod.mk.injEq .. ▸ h with ⟨h1, h2⟩
    subst h2
    rcases hshape maleAgg MALE_WEIGHT_CLASSES hwc with ⟨hk, h3, h4⟩
    exact ⟨Or.inl h1, Or.inl hk, h3, h4⟩
  · rcases List.mem_singleton.mp h with h'
    rcases Prod.mk.injEq .. ▸ h' with ⟨h1, h2⟩
    subst h2
    rcases hshape femaleAgg FEMALE_WEIGHT_CLASSES hwc with ⟨hk, h3, h4⟩
    exact ⟨Or.inr h1, Or.inr hk, h3, h4⟩

/-- Witness for C6: a key emitted under `all_ages` on the example is a
lift name. -/
theorem output_shape_witness : ("squat", exStats50).1 ∈ LIFTS :=
  ((output_shape exAgg exEmpty "male" (processSex exAgg MALE_WEIGHT_CLASSES)
        (List.mem_cons_self _ _) "59" exWcd
        (by rw [exProcessSexMale]; exact List.mem_singleton.mpr rfl)).2.2.1)
    ("squat", exStats50)
    (by show ("squat", exStats50) ∈ [("squat", exStats50)]
        exact List.mem_singleton.mpr rfl)
